import Mathlib

/-!
Verification of the decode-and-verify pipeline of the Ciphey2 repository.

The decoder strategies (reverse, caesar, morse code, base64_url, base91, z85)
and the dispatch engine (Decoders::run in src/filtration_system/mod.rs) are
translated from the Rust source into executable Lean definitions. Support code
that the source snapshot only declares or calls (CrackResult in
crack_results.rs, check_string_success in interface.rs, dictionary_decode in
dictionary_decoder.rs, the concrete checkers behind CheckerTypes) is modelled
from the specification, as marked on each such definition.
-/

namespace Ares

/-- Modelled from the spec: the verdict record produced by one plausibility
checker invocation; src/checkers/checker_result.rs is not in the source
snapshot. The spec data model requires an identification flag plus provenance
of which checker matched. -/
structure CheckResult where
  is_identified : Bool
  checker_name : String
deriving DecidableEq

/-- Modelled from the spec: the combined plausibility checker. The concrete
checkers wrapped by CheckerTypes (the src/checkers submodules athena, english,
lemmeknow) are not in the source snapshot; the spec specifies only that the
combined checker maps a candidate string to a verdict, so a checker is
abstracted as its check function. -/
def CheckerTypes : Type := String → CheckResult

/-- Translation of CheckerTypes::check (src/checkers/mod.rs): dispatch to the
wrapped checker, which in this embedding is function application. -/
def CheckerTypes.check (checker : CheckerTypes) (text : String) : CheckResult :=
  checker text

/-- Modelled from the spec: the Decode Outcome record; src/decoders/crack_results.rs
is not in the source snapshot. Fields follow the spec data model: success flag,
attempted text, candidate plaintexts (present only when the transform produced
usable output), source strategy name, and the attached checker verdict name. -/
structure CrackResult where
  success : Bool
  encrypted_text : String
  unencrypted_text : Option (List String)
  decoder : String
  checker_name : String
deriving DecidableEq

/-- Modelled from the spec: CrackResult construction as used by every decoder.
A fresh outcome starts unsuccessful, with no candidates and no checker verdict. -/
def CrackResult.new (decoder : String) (encrypted_text : String) : CrackResult :=
  { success := false, encrypted_text := encrypted_text, unencrypted_text := none,
    decoder := decoder, checker_name := "" }

/-- Modelled from the spec: CrackResult::update_checker attaches a checker
verdict to an outcome; the success flag is true iff the checker identified the
candidate. -/
def CrackResult.update_checker (result : CrackResult) (checker_result : CheckResult) :
    CrackResult :=
  { result with
      success := checker_result.is_identified,
      checker_name := checker_result.checker_name }

/-- Removal of leading and trailing whitespace, the trim used by the no-op
guard; written as structural recursion over the character sequence so that it
evaluates on concrete inputs. -/
def trimString (s : String) : String :=
  String.mk (((s.data.dropWhile Char.isWhitespace).reverse.dropWhile
    Char.isWhitespace).reverse)

/-- Modelled from the spec: check_string_success, the no-op guard from
src/decoders/interface.rs, which is not in the source snapshot. The spec:
reject outputs that are empty, identical to the input, or equal to the input
with only leading and trailing whitespace changed. -/
def check_string_success (decoded_text : String) (original_text : String) : Bool :=
  !(decoded_text == "" || decoded_text == original_text
      || trimString decoded_text == trimString original_text)

/-- Translation of the reverse decoder crack (src/decoders/reverse_decoder.rs,
lines 52 to 64): empty input returns the fresh outcome unchanged, otherwise the
character sequence is reversed and handed to the checker. -/
def ReverseDecoder.crack (text : String) (checker : CheckerTypes) : CrackResult :=
  let result := CrackResult.new "Reverse" text
  if text = "" then result
  else
    let rev_str : String := String.mk text.data.reverse
    let checker_res := CheckerTypes.check checker rev_str
    CrackResult.update_checker { result with unencrypted_text := some [rev_str] } checker_res

/-- Translation of Rust is_ascii_lowercase on chars. -/
def isAsciiLowercase (c : Char) : Bool :=
  97 ≤ c.toNat && c.toNat ≤ 122

/-- Translation of Rust is_ascii_uppercase on chars. -/
def isAsciiUppercase (c : Char) : Bool :=
  65 ≤ c.toNat && c.toNat ≤ 90

/-- Translation of Rust is_ascii_alphabetic on chars. -/
def isAsciiAlphabetic (c : Char) : Bool :=
  isAsciiUppercase c || isAsciiLowercase c

/-- Translation of the caesar rotation on one character (src/decoders/caesar_decoder.rs,
fn caesar, lines 90 to 103): ascii letters are rotated by the shift within
their case, every other character passes through unchanged. The u8 arithmetic
of the source cannot overflow (letter codes are at most 122 and the shift at
most 25, so the sum stays below 256) and cannot underflow (the letter code is
at least its case base), so Nat arithmetic computes the same function. -/
def caesarChar (shift : Nat) (c : Char) : Char :=
  if isAsciiAlphabetic c then
    let first : Nat := if isAsciiLowercase c then 97 else 65
    Char.ofNat (first + (c.toNat + shift - first) % 26)
  else c

/-- Translation of fn caesar (src/decoders/caesar_decoder.rs): map the rotation
over the character sequence of the string and collect. -/
def caesar (cipher : String) (shift : Nat) : String :=
  String.mk (cipher.data.map (caesarChar shift))

/-- Translation of the shift loop inside the caesar crack
(src/decoders/caesar_decoder.rs, lines 56 to 77): for each shift from 1 to 25,
rotate, stop with the fresh outcome if the no-op guard rejects the rotation,
return a single identified candidate as soon as the checker is positive, and
after the last shift return all accumulated rotations unverified. -/
def caesarLoop (text : String) (checker : CheckerTypes) (results : CrackResult)
    (decoded_strings : List String) (shift : Nat) : CrackResult :=
  if 25 < shift then { results with unencrypted_text := some decoded_strings }
  else
    let decoded_text := caesar text shift
    if check_string_success decoded_text text = false then results
    else
      let checker_result := CheckerTypes.check checker decoded_text
      if checker_result.is_identified then
        CrackResult.update_checker
          { results with unencrypted_text := some [decoded_text] } checker_result
      else caesarLoop text checker results (decoded_strings ++ [decoded_text]) (shift + 1)
termination_by 26 - shift
decreasing_by omega

/-- Translation of the caesar crack entry (src/decoders/caesar_decoder.rs,
lines 52 to 78): run the shift loop from shift 1 on a fresh outcome. -/
def CaesarDecoder.crack (text : String) (checker : CheckerTypes) : CrackResult :=
  caesarLoop text checker (CrackResult.new "Caesar Cipher" text) [] 1

/-- Translation of the morse symbol table (src/decoders/morse_code.rs, fn
morse_to_alphanumeric_dictionary, lines 81 to 105), as an association list in
source order. -/
def morse_to_alphanumeric_dictionary : List (String × String) :=
  [(".-", "A"), ("-...", "B"), ("-.-.", "C"),
   ("-..", "D"), (".", "E"), ("..-.", "F"),
   ("--.", "G"), ("....", "H"), ("..", "I"),
   (".---", "J"), ("-.-", "K"), (".-..", "L"),
   ("--", "M"), ("-.", "N"), ("---", "O"),
   (".--.", "P"), ("--.-", "Q"), (".-.", "R"),
   ("...", "S"), ("-", "T"), ("..-", "U"),
   ("...-", "V"), (".--", "W"), ("-..-", "X"),
   ("-.--", "Y"), ("--..", "Z"),
   (".----", "1"), ("..---", "2"), ("...--", "3"),
   ("....-", "4"), (".....", "5"), ("-....", "6"),
   ("--...", "7"), ("---..", "8"), ("----.", "9"),
   ("-----", "0"),
   (".-...", "&"), (".--.-.", "@"), ("---...", ":"),
   ("--..--", ","), (".-.-.-", "."), (".----.", "\x27"),
   (".-..-.", "\""), ("..--..", "?"), ("-..-.", "/"),
   ("-...-", "="), (".-.-.", "+"), ("-....-", "-"),
   ("-.--.", "("), ("-.--.-", ")"), ("/", " "),
   ("-.-.--", "!"), (" ", " "), ("", "")]

/-- Modelled from the spec: dictionary_decode from src/decoders/dictionary_decoder.rs,
which is not in the source snapshot. The spec: map each token through the fixed
symbol table and concatenate; any unrecognized token causes the whole decode to
fail with no partial output. -/
def dictionary_decode (tokens : List String) (dict : List (String × String)) :
    Option String :=
  match tokens with
  | [] => some ""
  | token :: rest =>
    match List.lookup token dict, dictionary_decode rest dict with
    | some value, some decoded_rest => some (value ++ decoded_rest)
    | _, _ => none

/-- Translation of the Rust split on the single space pattern as used by the
morse crack: the character sequence is cut at every space, producing one token
per gap, with empty tokens between consecutive spaces and at both ends.
Written as structural recursion so that it evaluates on concrete inputs. -/
def splitOnSpaceChars : List Char → List Char → List String
  | [], current => [String.mk current.reverse]
  | c :: rest, current =>
    if c = ' ' then String.mk current.reverse :: splitOnSpaceChars rest []
    else splitOnSpaceChars rest (c :: current)

/-- Split a string at every space character, in the sense of Rust str split
with a one character pattern. -/
def splitOnSpace (text : String) : List String :=
  splitOnSpaceChars text.data []

/-- Translation of the morse code crack (src/decoders/morse_code.rs, lines 43
to 70): split the input on the space character, decode through the symbol
table, reject when a token is unknown or when the no-op guard fails, otherwise
hand the decoded text to the checker. -/
def MorseCodeDecoder.crack (text : String) (checker : CheckerTypes) : CrackResult :=
  match dictionary_decode (splitOnSpace text) morse_to_alphanumeric_dictionary with
  | none => CrackResult.new "Morse Code" text
  | some decoded_text =>
    if check_string_success decoded_text text = false then CrackResult.new "Morse Code" text
    else
      CrackResult.update_checker
        { CrackResult.new "Morse Code" text with unencrypted_text := some [decoded_text] }
        (CheckerTypes.check checker decoded_text)

/-- Translation of the base64_url crack (src/decoders/base64_url_decoder.rs,
lines 54 to 79). The raw transform decode_base64_url_no_error_handling calls
the external base64 crate, which the spec excludes from the core and specifies
only by its contract, so it is taken as a parameter. -/
def Base64URLDecoder.crack (decode_base64_url_no_error_handling : String → Option String)
    (text : String) (checker : CheckerTypes) : CrackResult :=
  match decode_base64_url_no_error_handling text with
  | none => CrackResult.new "base64_url" text
  | some decoded_text =>
    if check_string_success decoded_text text = false then CrackResult.new "base64_url" text
    else
      CrackResult.update_checker
        { CrackResult.new "base64_url" text with unencrypted_text := some [decoded_text] }
        (CheckerTypes.check checker decoded_text)

/-- Translation of the base91 crack (src/decoders/base91_decoder.rs, lines 54
to 79). The raw transform decode_base91_no_error_handling calls the external
base91 crate, so it is taken as a parameter. -/
def Base91Decoder.crack (decode_base91_no_error_handling : String → Option String)
    (text : String) (checker : CheckerTypes) : CrackResult :=
  match decode_base91_no_error_handling text with
  | none => CrackResult.new "base91" text
  | some decoded_text =>
    if check_string_success decoded_text text = false then CrackResult.new "base91" text
    else
      CrackResult.update_checker
        { CrackResult.new "base91" text with unencrypted_text := some [decoded_text] }
        (CheckerTypes.check checker decoded_text)

/-- Translation of the z85 crack (src/decoders/z85_decoder.rs, lines 51 to 76).
The raw transform decode_z85_no_error_handling calls the external z85 crate,
so it is taken as a parameter. -/
def Z85Decoder.crack (decode_z85_no_error_handling : String → Option String)
    (text : String) (checker : CheckerTypes) : CrackResult :=
  match decode_z85_no_error_handling text with
  | none => CrackResult.new "Z85" text
  | some decoded_text =>
    if check_string_success decoded_text text = false then CrackResult.new "Z85" text
    else
      CrackResult.update_checker
        { CrackResult.new "Z85" text with unencrypted_text := some [decoded_text] }
        (CheckerTypes.check checker decoded_text)

/-- A decoder strategy as the dispatch engine sees it: the crack behavior of
one trait object stored in Decoders::components (src/filtration_system/mod.rs,
Vec of boxed Crack trait objects). -/
def Strategy : Type := String → CheckerTypes → CrackResult

/-- Translation of struct Decoders (src/filtration_system/mod.rs, lines 21 to 23). -/
structure Decoders where
  components : List Strategy

/-- Translation of enum MyResults (src/filtration_system/mod.rs, lines 28 to 31):
Break carries the single successful outcome, Continue the collection of
unsuccessful outcomes. -/
inductive MyResults where
  | Break : CrackResult → MyResults
  | Continue : List CrackResult → MyResults
deriving DecidableEq

/-- Translation of MyResults::break_value (src/filtration_system/mod.rs). -/
def MyResults.break_value : MyResults → Option CrackResult
  | MyResults.Break val => some val
  | MyResults.Continue _ => none

/-- The outcome the strategy at index i produces for the given text and checker. -/
def crackAt (d : Decoders) (text : String) (checker : CheckerTypes)
    (i : Fin d.components.length) : CrackResult :=
  (d.components.get i) text checker

/-- The sequence of outcomes delivered on the mpsc channel of Decoders::run,
indexed by the order in which the rayon workers complete. -/
def delivered (d : Decoders) (text : String) (checker : CheckerTypes)
    (order : List (Fin d.components.length)) : List CrackResult :=
  order.map (crackAt d text checker)

/-- Translation of the receiver loop of Decoders::run
(src/filtration_system/mod.rs, lines 70 to 80): receive outcomes until the
channel closes, short-circuit to Break on the first successful outcome, and
otherwise accumulate into all_results, returned as Continue. -/
def recvLoop : List CrackResult → List CrackResult → MyResults
  | [], all_results => MyResults.Continue all_results
  | result :: rest, all_results =>
    if result.success then MyResults.Break result
    else recvLoop rest (all_results ++ [result])

/-- Translation of Decoders::run (src/filtration_system/mod.rs, lines 52 to 81).
The rayon fan-out delivers each completed crack outcome to the channel; the
interleaving of worker completions is not fixed by the source, so run is
parameterized by the delivery order and the theorems quantify over it. -/
def Decoders.run (d : Decoders) (text : String) (checker : CheckerTypes)
    (order : List (Fin d.components.length)) : MyResults :=
  recvLoop (delivered d text checker order) []

/-- The delivery orders the rayon try_for_each fan-out can produce: each
strategy sends at most once (no duplicates), and either every strategy ran and
sent (no short-circuit happened) or the short-circuit was triggered by a
strategy that sent a successful outcome before stopping the iterator. -/
def ValidSchedule (d : Decoders) (text : String) (checker : CheckerTypes)
    (order : List (Fin d.components.length)) : Prop :=
  order.Nodup ∧
    ((∀ i, i ∈ order) ∨ ∃ i ∈ order, (crackAt d text checker i).success = true)

/-- A checker that identifies nothing, used to instantiate theorems on
concrete inputs. -/
def alwaysNoChecker : CheckerTypes :=
  fun _ => { is_identified := false, checker_name := "none" }

/-- A checker identifying exactly the string hello, standing in for a
dictionary hit on that word. -/
def helloChecker : CheckerTypes :=
  fun s => { is_identified := s == "hello", checker_name := "English Checker" }

/-- A checker identifying exactly the string wow, standing in for a dictionary
hit on that word. -/
def wowChecker : CheckerTypes :=
  fun s => { is_identified := s == "wow", checker_name := "English Checker" }

/-- A checker that identifies everything, used to instantiate theorems on
concrete inputs with the most permissive checker. -/
def alwaysYesChecker : CheckerTypes :=
  fun _ => { is_identified := true, checker_name := "all" }

/-- A strategy that always fails, used to instantiate the dispatch theorems. -/
def failStrategy : Strategy :=
  fun text _ => CrackResult.new "fail" text

/-- A strategy that always succeeds, used to instantiate the dispatch theorems. -/
def okStrategy : Strategy :=
  fun text _ =>
    { CrackResult.new "ok" text with success := true, unencrypted_text := some ["plain"] }

/-- A registry with a single failing strategy. -/
def oneFailRegistry : Decoders := ⟨[failStrategy]⟩

/-- A registry where only the second strategy succeeds. -/
def mixedRegistry : Decoders := ⟨[failStrategy, okStrategy]⟩

/-- A registry where no strategy succeeds. -/
def twoFailRegistry : Decoders := ⟨[failStrategy, failStrategy]⟩

/-- Char.ofNat evaluates back to the same code point below the surrogate range. -/
theorem char_toNat_ofNat (n : Nat) (h : n < 55296) : (Char.ofNat n).toNat = n := by
  rw [Char.ofNat, dif_pos (Or.inl h : n.isValidChar)]
  rfl

/-- An ascii alphabetic character is in the upper or the lower letter band. -/
theorem alpha_char_cases (c : Char) (h : isAsciiAlphabetic c = true) :
    (65 ≤ c.toNat ∧ c.toNat ≤ 90) ∨ (97 ≤ c.toNat ∧ c.toNat ≤ 122) := by
  unfold isAsciiAlphabetic isAsciiUppercase isAsciiLowercase at h
  simp only [Bool.or_eq_true, Bool.and_eq_true, decide_eq_true_eq] at h
  tauto

/-- Value of the caesar rotation on a lower case ascii letter. -/
theorem caesarChar_lower (shift : Nat) (c : Char) (h1 : 97 ≤ c.toNat) (h2 : c.toNat ≤ 122) :
    (caesarChar shift c).toNat = 97 + (c.toNat + shift - 97) % 26 := by
  have hlow : isAsciiLowercase c = true := by
    unfold isAsciiLowercase
    simp only [Bool.and_eq_true, decide_eq_true_eq]
    omega
  have halpha : isAsciiAlphabetic c = true := by
    unfold isAsciiAlphabetic
    simp [hlow]
  unfold caesarChar
  rw [if_pos halpha]
  have hfirst : (if isAsciiLowercase c = true then (97 : Nat) else 65) = 97 := by
    rw [hlow]
    decide
  simp only [hfirst]
  exact char_toNat_ofNat _ (by
    have := Nat.mod_lt (c.toNat + shift - 97) (y := 26) (by omega)
    omega)

/-- Value of the caesar rotation on an upper case ascii letter. -/
theorem caesarChar_upper (shift : Nat) (c : Char) (h1 : 65 ≤ c.toNat) (h2 : c.toNat ≤ 90) :
    (caesarChar shift c).toNat = 65 + (c.toNat + shift - 65) % 26 := by
  have hlow : isAsciiLowercase c = false := by
    apply Bool.eq_false_iff.mpr
    unfold isAsciiLowercase
    simp only [ne_eq, Bool.and_eq_true, decide_eq_true_eq, not_and]
    omega
  have hup : isAsciiUppercase c = true := by
    unfold isAsciiUppercase
    simp only [Bool.and_eq_true, decide_eq_true_eq]
    omega
  have halpha : isAsciiAlphabetic c = true := by
    unfold isAsciiAlphabetic
    simp [hup]
  unfold caesarChar
  rw [if_pos halpha]
  have hfirst : (if isAsciiLowercase c = true then (97 : Nat) else 65) = 65 := by
    rw [hlow]
    decide
  simp only [hfirst]
  exact char_toNat_ofNat _ (by
    have := Nat.mod_lt (c.toNat + shift - 65) (y := 26) (by omega)
    omega)

/-- The caesar rotation passes non ascii alphabetic characters through unchanged. -/
theorem caesarChar_not_alpha (shift : Nat) (c : Char) (h : isAsciiAlphabetic c = false) :
    caesarChar shift c = c := by
  unfold caesarChar
  simp [h]

/-- Rotating one character by a shift and then by its complement to 26 gives
the character back. -/
theorem caesarChar_cancel (s : Nat) (hs1 : 1 ≤ s) (hs2 : s ≤ 25) (c : Char) :
    caesarChar (26 - s) (caesarChar s c) = c := by
  by_cases halpha : isAsciiAlphabetic c = true
  · rcases alpha_char_cases c halpha with ⟨h1, h2⟩ | ⟨h1, h2⟩
    · have hv := caesarChar_upper s c h1 h2
      have hmod : (c.toNat + s - 65) % 26 < 26 := Nat.mod_lt _ (by omega)
      have hb1 : 65 ≤ (caesarChar s c).toNat := by omega
      have hb2 : (caesarChar s c).toNat ≤ 90 := by omega
      have hv2 := caesarChar_upper (26 - s) (caesarChar s c) hb1 hb2
      have heq : (caesarChar (26 - s) (caesarChar s c)).toNat = c.toNat := by
        rw [hv2, hv]
        omega
      calc caesarChar (26 - s) (caesarChar s c)
          = Char.ofNat ((caesarChar (26 - s) (caesarChar s c)).toNat) :=
            (Char.ofNat_toNat _).symm
        _ = Char.ofNat c.toNat := by rw [heq]
        _ = c := Char.ofNat_toNat c
    · have hv := caesarChar_lower s c h1 h2
      have hmod : (c.toNat + s - 97) % 26 < 26 := Nat.mod_lt _ (by omega)
      have hb1 : 97 ≤ (caesarChar s c).toNat := by omega
      have hb2 : (caesarChar s c).toNat ≤ 122 := by omega
      have hv2 := caesarChar_lower (26 - s) (caesarChar s c) hb1 hb2
      have heq : (caesarChar (26 - s) (caesarChar s c)).toNat = c.toNat := by
        rw [hv2, hv]
        omega
      calc caesarChar (26 - s) (caesarChar s c)
          = Char.ofNat ((caesarChar (26 - s) (caesarChar s c)).toNat) :=
            (Char.ofNat_toNat _).symm
        _ = Char.ofNat c.toNat := by rw [heq]
        _ = c := Char.ofNat_toNat c
  · have h := Bool.eq_false_iff.mpr halpha
    rw [caesarChar_not_alpha s c h, caesarChar_not_alpha (26 - s) c h]

/-- C6: for every input string and every shift s with 1 le s le 25, applying
the caesar rotation with shift s and then with shift 26 - s yields exactly the
input again; non alphabetic and non ascii characters pass through unchanged in
both applications. -/
theorem caesar_roundtrip (s : Nat) (hs1 : 1 ≤ s) (hs2 : s ≤ 25) (x : String) :
    caesar (caesar x s) (26 - s) = x := by
  rcases x with ⟨data⟩
  unfold caesar
  simp only [List.map_map]
  have hmap : data.map (caesarChar (26 - s) ∘ caesarChar s) = data := by
    have hcongr : ∀ a ∈ data, (caesarChar (26 - s) ∘ caesarChar s) a = id a := by
      intro a _
      exact caesarChar_cancel s hs1 hs2 a
    rw [List.map_congr_left hcongr, List.map_id]
  rw [hmap]

/-- Witness for the caesar round trip at shift 5 on text with spaces and a non
ascii character. -/
theorem caesar_roundtrip_witness :
    caesar (caesar "attack at dawn Ω" 5) (26 - 5) = "attack at dawn Ω" :=
  caesar_roundtrip 5 (by decide) (by decide) "attack at dawn Ω"

/-- C8: the reversal strategy's crack reverses the full character sequence of
its input; the only input for which it returns no candidates is the empty
string, and on every non empty input the reversed string is the single
candidate, with the success flag equal to the checker verdict on it. -/
theorem reverse_crack_characterization (text : String) (checker : CheckerTypes) :
    ((ReverseDecoder.crack text checker).unencrypted_text = none ↔ text = "")
  ∧ (text ≠ "" →
      (ReverseDecoder.crack text checker).unencrypted_text
          = some [String.mk text.data.reverse]
      ∧ (ReverseDecoder.crack text checker).success
          = (CheckerTypes.check checker (String.mk text.data.reverse)).is_identified) := by
  unfold ReverseDecoder.crack
  by_cases h : text = ""
  · subst h
    simp [CrackResult.new, CrackResult.update_checker]
  · simp [h, CrackResult.new, CrackResult.update_checker]

/-- Witness for the reverse crack characterization: input stac yields the
single candidate cats. -/
theorem reverse_crack_characterization_witness :
    (ReverseDecoder.crack "stac" alwaysNoChecker).unencrypted_text = some ["cats"] := by
  have h := (reverse_crack_characterization "stac" alwaysNoChecker).2 (by decide)
  have hrev : String.mk ("stac".data.reverse) = "cats" := by decide
  rw [hrev] at h
  exact h.1

/-- C3 counterexample: the reverse decoder applies no no-op guard. On the
palindromic input wow the raw transform output equals the input, yet a checker
whose dictionary contains wow marks the outcome successful. -/
theorem reverse_noop_guard_counterexample :
    String.mk ("wow".data.reverse) = "wow"
    ∧ (ReverseDecoder.crack "wow" wowChecker).success = true := by
  decide

/-- The caesar shift loop stops with the incoming outcome unchanged when the
no-op guard rejects the rotation at the current shift. -/
theorem caesarLoop_guard_fail (text : String) (checker : CheckerTypes)
    (results : CrackResult) (decoded_strings : List String) (shift : Nat)
    (hs : shift ≤ 25) (hg : check_string_success (caesar text shift) text = false) :
    caesarLoop text checker results decoded_strings shift = results := by
  unfold caesarLoop
  rw [if_neg (by omega)]
  simp only [hg, if_pos]

/-- Running the caesar shift loop from shift k when the first checker hit is at
shift s: every guard up to s passes, no shift before s is identified, and shift
s is identified, so the loop returns the single candidate at s with its verdict. -/
theorem caesarLoop_first_hit (text : String) (checker : CheckerTypes)
    (results : CrackResult) (s : Nat) (hs : s ≤ 25)
    (hcs : (CheckerTypes.check checker (caesar text s)).is_identified = true) :
    ∀ n k decoded_strings, k + n = s → 1 ≤ k →
    (∀ i, k ≤ i → i ≤ s → check_string_success (caesar text i) text = true) →
    (∀ i, k ≤ i → i < s → (CheckerTypes.check checker (caesar text i)).is_identified = false) →
    caesarLoop text checker results decoded_strings k =
      CrackResult.update_checker
        { results with unencrypted_text := some [caesar text s] }
        (CheckerTypes.check checker (caesar text s)) := by
  intro n
  induction n with
  | zero =>
    intro k acc hk hk1 hg hc
    have hks : k = s := by omega
    subst hks
    unfold caesarLoop
    rw [if_neg (by omega)]
    simp only [hg k le_rfl (by omega), hcs, if_pos, if_neg, Bool.true_eq_false,
      not_false_eq_true, if_true, if_false]
  | succ n ih =>
    intro k acc hk hk1 hg hc
    have hklt : k < s := by omega
    unfold caesarLoop
    rw [if_neg (by omega)]
    simp only [hg k le_rfl (by omega), hc k le_rfl hklt, Bool.true_eq_false,
      Bool.false_eq_true, if_false]
    exact ih (k + 1) (acc ++ [caesar text k]) (by omega) (by omega)
      (fun i h1 h2 => hg i (by omega) h2)
      (fun i h1 h2 => hc i (by omega) h2)

/-- Running the caesar shift loop from shift k when every remaining shift
passes the guard and none is identified by the checker: the loop appends every
remaining rotation and returns them all unverified. -/
theorem caesarLoop_exhaust (text : String) (checker : CheckerTypes)
    (results : CrackResult) :
    ∀ n k decoded_strings, k + n = 26 → 1 ≤ k →
    (∀ i, k ≤ i → i ≤ 25 → check_string_success (caesar text i) text = true) →
    (∀ i, k ≤ i → i ≤ 25 → (CheckerTypes.check checker (caesar text i)).is_identified = false) →
    caesarLoop text checker results decoded_strings k =
      { results with
          unencrypted_text := some (decoded_strings ++ (List.range' k (26 - k)).map (caesar text)) } := by
  intro n
  induction n with
  | zero =>
    intro k acc hk hk1 hg hc
    have hks : k = 26 := by omega
    subst hks
    unfold caesarLoop
    rw [if_pos (by omega)]
    simp
  | succ n ih =>
    intro k acc hk hk1 hg hc
    have hk25 : k ≤ 25 := by omega
    unfold caesarLoop
    rw [if_neg (by omega)]
    simp only [hg k le_rfl hk25, hc k le_rfl hk25, Bool.true_eq_false,
      Bool.false_eq_true, if_false]
    rw [ih (k + 1) (acc ++ [caesar text k]) (by omega) (by omega)
      (fun i h1 h2 => hg i (by omega) h2)
      (fun i h1 h2 => hc i (by omega) h2)]
    have h26 : 26 - k = (26 - (k + 1)) + 1 := by omega
    rw [h26, List.range'_succ]
    simp

/-- C5: characterization of the caesar crack. If the no-op guard rejects the
first rotation, the crack returns with no candidates at all; if the guard
passes up to the first shift s whose rotation the checker identifies, the
crack returns success with the single candidate at s; if every shift passes
the guard and none is identified, the crack returns all 25 rotations of shifts
1 through 25, in order, unverified. -/
theorem caesar_crack_characterization (text : String) (checker : CheckerTypes) :
    (check_string_success (caesar text 1) text = false →
      (CaesarDecoder.crack text checker).success = false
      ∧ (CaesarDecoder.crack text checker).unencrypted_text = none)
  ∧ (∀ s, 1 ≤ s → s ≤ 25 →
      (∀ i, 1 ≤ i → i ≤ s → check_string_success (caesar text i) text = true) →
      (∀ i, 1 ≤ i → i < s →
        (CheckerTypes.check checker (caesar text i)).is_identified = false) →
      (CheckerTypes.check checker (caesar text s)).is_identified = true →
      (CaesarDecoder.crack text checker).success = true
      ∧ (CaesarDecoder.crack text checker).unencrypted_text = some [caesar text s])
  ∧ ((∀ i, 1 ≤ i → i ≤ 25 → check_string_success (caesar text i) text = true) →
     (∀ i, 1 ≤ i → i ≤ 25 →
        (CheckerTypes.check checker (caesar text i)).is_identified = false) →
      (CaesarDecoder.crack text checker).success = false
      ∧ (CaesarDecoder.crack text checker).unencrypted_text
          = some ((List.range' 1 25).map (caesar text))
      ∧ ((List.range' 1 25).map (caesar text)).length = 25) := by
  refine ⟨?_, ?_, ?_⟩
  · intro hg
    unfold CaesarDecoder.crack
    rw [caesarLoop_guard_fail text checker _ [] 1 (by omega) hg]
    simp [CrackResult.new]
  · intro s hs1 hs2 hg hc hcs
    unfold CaesarDecoder.crack
    rw [caesarLoop_first_hit text checker _ s hs2 hcs (s - 1) 1 [] (by omega) (by omega)
      hg hc]
    simp [CrackResult.update_checker, hcs]
  · intro hg hc
    unfold CaesarDecoder.crack
    rw [caesarLoop_exhaust text checker _ 25 1 [] (by omega) (by omega) hg hc]
    simp [CrackResult.new]

/-- Witness for the caesar crack characterization: rot13 input uryyb with a
checker recognizing hello succeeds with the single candidate hello. -/
theorem caesar_crack_characterization_witness :
    (CaesarDecoder.crack "uryyb" helloChecker).success = true
    ∧ (CaesarDecoder.crack "uryyb" helloChecker).unencrypted_text = some ["hello"] := by
  have h := (caesar_crack_characterization "uryyb" helloChecker).2.1 13
    (by omega) (by omega)
    (by intro i h1 h2; interval_cases i <;> decide)
    (by intro i h1 h2; interval_cases i <;> decide)
    (by decide)
  have hc : caesar "uryyb" 13 = "hello" := by decide
  rw [hc] at h
  exact h

/-- The receiver loop breaks with x when some delivered outcome succeeds and
every delivered successful outcome equals x. -/
theorem recvLoop_break (x : CrackResult) :
    ∀ l acc, (∃ r ∈ l, r.success = true) → (∀ r ∈ l, r.success = true → r = x) →
    recvLoop l acc = MyResults.Break x := by
  intro l
  induction l with
  | nil =>
    intro acc hex _
    obtain ⟨r, hr, _⟩ := hex
    exact absurd hr (List.not_mem_nil r)
  | cons r rest ih =>
    intro acc hex huniq
    unfold recvLoop
    by_cases hr : r.success = true
    · rw [if_pos hr, huniq r (List.mem_cons_self r rest) hr]
    · rw [if_neg hr]
      apply ih
      · obtain ⟨r0, hr0, hr0s⟩ := hex
        rcases List.mem_cons.mp hr0 with h | h
        · exact absurd (h ▸ hr0s) hr
        · exact ⟨r0, h, hr0s⟩
      · exact fun r0 h0 hs => huniq r0 (List.mem_cons_of_mem r h0) hs

/-- The receiver loop returns Continue with everything accumulated when no
delivered outcome succeeds. -/
theorem recvLoop_continue :
    ∀ l acc, (∀ r ∈ l, r.success = false) →
    recvLoop l acc = MyResults.Continue (acc ++ l) := by
  intro l
  induction l with
  | nil =>
    intro acc _
    simp [recvLoop]
  | cons r rest ih =>
    intro acc hall
    unfold recvLoop
    rw [if_neg (by simp [hall r (List.mem_cons_self r rest)])]
    rw [ih (acc ++ [r]) (fun r0 h0 => hall r0 (List.mem_cons_of_mem r h0))]
    simp

/-- Whatever the receiver loop returns through Continue consists of
unsuccessful outcomes only, given that the accumulator holds only unsuccessful
outcomes. -/
theorem recvLoop_continue_inv :
    ∀ l acc out, recvLoop l acc = MyResults.Continue out →
    (∀ r ∈ acc, r.success = false) → ∀ r ∈ out, r.success = false := by
  intro l
  induction l with
  | nil =>
    intro acc out h hacc
    unfold recvLoop at h
    injection h with h
    exact h ▸ hacc
  | cons r rest ih =>
    intro acc out h hacc
    unfold recvLoop at h
    by_cases hr : r.success = true
    · rw [if_pos hr] at h
      exact absurd h (by simp)
    · rw [if_neg hr] at h
      refine ih (acc ++ [r]) out h ?_
      intro r0 h0
      rcases List.mem_append.mp h0 with h1 | h1
      · exact hacc r0 h1
      · rw [List.mem_singleton.mp h1]
        exact Bool.eq_false_iff.mpr hr

/-- C1: for every registry, input and checker, if exactly one strategy's crack
succeeds, then for every delivery order the rayon fan-out can produce,
Decoders run returns the Break variant carrying exactly that strategy's
outcome. -/
theorem run_unique_success (d : Decoders) (text : String) (checker : CheckerTypes)
    (order : List (Fin d.components.length))
    (hvalid : ValidSchedule d text checker order) (j : Fin d.components.length)
    (hj : (crackAt d text checker j).success = true)
    (huniq : ∀ k, (crackAt d text checker k).success = true → k = j) :
    Decoders.run d text checker order = MyResults.Break (crackAt d text checker j) := by
  obtain ⟨hnd, hcover⟩ := hvalid
  have hjmem : j ∈ order := by
    rcases hcover with hall | ⟨i, hi, hisucc⟩
    · exact hall j
    · rw [huniq i hisucc] at hi
      exact hi
  unfold Decoders.run delivered
  apply recvLoop_break
  · exact ⟨crackAt d text checker j, List.mem_map_of_mem _ hjmem, hj⟩
  · rintro r hr hrs
    obtain ⟨k, hk, rfl⟩ := List.mem_map.mp hr
    rw [huniq k hrs]

/-- Witness for the unique-success dispatch: a registry where only the second
strategy succeeds, with a delivery order putting the successful outcome first. -/
theorem run_unique_success_witness :
    Decoders.run mixedRegistry "stac" alwaysNoChecker [⟨1, by decide⟩, ⟨0, by decide⟩]
      = MyResults.Break (crackAt mixedRegistry "stac" alwaysNoChecker ⟨1, by decide⟩) := by
  apply run_unique_success
  · constructor
    · decide
    · left
      intro i
      fin_cases i <;> decide
  · decide
  · intro k hk
    fin_cases k
    · exact absurd hk (by decide)
    · decide

/-- C2: for every registry, input and checker, if no strategy's crack
succeeds, then for every delivery order the rayon fan-out can produce,
Decoders run returns the Continue variant and the collection it carries has
exactly one outcome per registered strategy. -/
theorem run_exhausted (d : Decoders) (text : String) (checker : CheckerTypes)
    (order : List (Fin d.components.length))
    (hvalid : ValidSchedule d text checker order)
    (hnone : ∀ k, (crackAt d text checker k).success = false) :
    Decoders.run d text checker order
        = MyResults.Continue (delivered d text checker order)
    ∧ (delivered d text checker order).length = d.components.length := by
  obtain ⟨hnd, hcover⟩ := hvalid
  have hall : ∀ i, i ∈ order := by
    rcases hcover with hall | ⟨i, _, hisucc⟩
    · exact hall
    · rw [hnone i] at hisucc
      exact absurd hisucc (by simp)
  constructor
  · unfold Decoders.run
    rw [recvLoop_continue _ []]
    · simp
    · rintro r hr
      obtain ⟨k, _, rfl⟩ := List.mem_map.mp hr
      exact hnone k
  · rw [delivered, List.length_map]
    have h1 : order.toFinset.card = order.length := List.toFinset_card_of_nodup hnd
    have h2 : order.toFinset = Finset.univ :=
      Finset.eq_univ_iff_forall.mpr (fun i => List.mem_toFinset.mpr (hall i))
    rw [h2] at h1
    simpa using h1.symm

/-- Witness for the exhausted dispatch: two failing strategies, both
delivered; the failure collection has exactly two outcomes. -/
theorem run_exhausted_witness :
    Decoders.run twoFailRegistry "stac" alwaysNoChecker [⟨0, by decide⟩, ⟨1, by decide⟩]
        = MyResults.Continue
            (delivered twoFailRegistry "stac" alwaysNoChecker [⟨0, by decide⟩, ⟨1, by decide⟩])
    ∧ (delivered twoFailRegistry "stac" alwaysNoChecker
        [⟨0, by decide⟩, ⟨1, by decide⟩]).length
        = twoFailRegistry.components.length := by
  apply run_exhausted
  · constructor
    · decide
    · left
      intro i
      fin_cases i <;> decide
  · intro k
    fin_cases k <;> decide

/-- C10: whenever Decoders run returns the Continue variant, every outcome in
the returned collection is unsuccessful; a successful outcome can only be
delivered through the Break variant. -/
theorem run_continue_all_unsuccessful (d : Decoders) (text : String)
    (checker : CheckerTypes) (order : List (Fin d.components.length))
    (l : List CrackResult)
    (h : Decoders.run d text checker order = MyResults.Continue l) :
    ∀ r ∈ l, r.success = false := by
  unfold Decoders.run at h
  exact recvLoop_continue_inv _ [] l h (by simp)

/-- Witness for the Continue invariant at a concrete one-strategy registry. -/
theorem run_continue_all_unsuccessful_witness :
    (CrackResult.new "fail" "stac").success = false := by
  have h : Decoders.run oneFailRegistry "stac" alwaysNoChecker [⟨0, by decide⟩]
      = MyResults.Continue [CrackResult.new "fail" "stac"] := by decide
  exact run_continue_all_unsuccessful oneFailRegistry "stac" alwaysNoChecker
    [⟨0, by decide⟩] [CrackResult.new "fail" "stac"] h
    (CrackResult.new "fail" "stac") (List.mem_singleton.mpr rfl)

/-- A token missing from the symbol table makes the whole dictionary decode
fail with no partial output. -/
theorem dictionary_decode_none (dict : List (String × String)) :
    ∀ tokens t, t ∈ tokens → List.lookup t dict = none →
    dictionary_decode tokens dict = none := by
  intro tokens
  induction tokens with
  | nil =>
    intro t ht _
    exact absurd ht (List.not_mem_nil t)
  | cons tok rest ih =>
    intro t ht hnone
    unfold dictionary_decode
    rcases List.mem_cons.mp ht with h | h
    · subst h
      rw [hnone]
    · rw [ih t h hnone]
      cases List.lookup tok dict <;> rfl

/-- A successful dictionary decode is the concatenation of the per token
translations. -/
theorem dictionary_decode_concat (dict : List (String × String)) :
    ∀ tokens out, dictionary_decode tokens dict = some out →
    out = List.foldr (fun a b => a ++ b) ""
      (tokens.map (fun t => (List.lookup t dict).getD "")) := by
  intro tokens
  induction tokens with
  | nil =>
    intro out h
    unfold dictionary_decode at h
    injection h with h
    simp [← h]
  | cons tok rest ih =>
    intro out h
    unfold dictionary_decode at h
    cases hl : List.lookup tok dict with
    | none =>
      rw [hl] at h
      cases hr : dictionary_decode rest dict <;> rw [hr] at h <;> exact absurd h (by simp)
    | some v =>
      rw [hl] at h
      cases hr : dictionary_decode rest dict with
      | none =>
        rw [hr] at h
        exact absurd h (by simp)
      | some rest_out =>
        rw [hr] at h
        injection h with h
        rw [← h]
        simp [hl, ← ih rest_out hr]

/-- C7 counterexample: between two consecutive spaces the split produces an
empty token, and the symbol table maps the empty token to the empty string
rather than to a space. The input of two dots separated by two spaces decodes
to EE, not to E space E as the claim predicts. -/
theorem morse_empty_token_counterexample :
    (MorseCodeDecoder.crack ".  ." alwaysNoChecker).unencrypted_text = some ["EE"]
    ∧ List.lookup "" morse_to_alphanumeric_dictionary = some ""
    ∧ ("EE" : String) ≠ "E E" := by
  decide

/-- C7 amended: the morse crack splits the input on the space character, maps
each token through the fixed symbol table and concatenates; any token not in
the table makes the whole decode yield no candidates; a literal slash token
maps to a single space, while the empty token maps to the empty string, not to
a space; when the decode succeeds and passes the no-op guard, the decoded text
is the single candidate and the success flag is the checker verdict on it. -/
theorem morse_crack_characterization (text : String) (checker : CheckerTypes) :
    (List.lookup "/" morse_to_alphanumeric_dictionary = some " "
      ∧ List.lookup "" morse_to_alphanumeric_dictionary = some "")
  ∧ ((∃ t ∈ splitOnSpace text, List.lookup t morse_to_alphanumeric_dictionary = none) →
      (MorseCodeDecoder.crack text checker).success = false
      ∧ (MorseCodeDecoder.crack text checker).unencrypted_text = none)
  ∧ (∀ out,
      dictionary_decode (splitOnSpace text) morse_to_alphanumeric_dictionary = some out →
      out = List.foldr (fun a b => a ++ b) ""
        ((splitOnSpace text).map
          (fun t => (List.lookup t morse_to_alphanumeric_dictionary).getD "")))
  ∧ (∀ out,
      dictionary_decode (splitOnSpace text) morse_to_alphanumeric_dictionary = some out →
      check_string_success out text = true →
      (MorseCodeDecoder.crack text checker).unencrypted_text = some [out]
      ∧ (MorseCodeDecoder.crack text checker).success
          = (CheckerTypes.check checker out).is_identified) := by
  refine ⟨by decide, ?_, ?_, ?_⟩
  · rintro ⟨t, ht, hnone⟩
    have hd := dictionary_decode_none morse_to_alphanumeric_dictionary
      (splitOnSpace text) t ht hnone
    unfold MorseCodeDecoder.crack
    rw [hd]
    simp [CrackResult.new]
  · intro out h
    exact dictionary_decode_concat _ _ out h
  · intro out h hg
    unfold MorseCodeDecoder.crack
    rw [h]
    simp only [hg, Bool.true_eq_false, if_false]
    simp [CrackResult.update_checker, CrackResult.new]

/-- Witness for the morse characterization: the spec scenario input decodes to
the IP address, delivered as the single candidate. -/
theorem morse_crack_characterization_witness :
    (MorseCodeDecoder.crack
        ".---- ----. ..--- .-.-.- .---- -.... ---.. .-.-.- ----- .-.-.- .----"
        alwaysNoChecker).unencrypted_text = some ["192.168.0.1"] := by
  have h := (morse_crack_characterization
    ".---- ----. ..--- .-.-.- .---- -.... ---.. .-.-.- ----- .-.-.- .----"
    alwaysNoChecker).2.2.2 "192.168.0.1" (by decide) (by decide)
  exact h.1

/-- C4: on the empty string every strategy's crack returns an unsuccessful
outcome with no candidates, for every checker. The strategies whose raw
transform is an external crate are covered for every transform that, at the
empty string, either fails or returns the empty decode, which is how the
base64, base91 and z85 crates behave there. -/
theorem crack_empty_input (checker : CheckerTypes)
    (decode_fn : String → Option String)
    (hd : decode_fn "" = none ∨ decode_fn "" = some "") :
    ((ReverseDecoder.crack "" checker).success = false
      ∧ (ReverseDecoder.crack "" checker).unencrypted_text = none)
  ∧ ((CaesarDecoder.crack "" checker).success = false
      ∧ (CaesarDecoder.crack "" checker).unencrypted_text = none)
  ∧ ((MorseCodeDecoder.crack "" checker).success = false
      ∧ (MorseCodeDecoder.crack "" checker).unencrypted_text = none)
  ∧ ((Base64URLDecoder.crack decode_fn "" checker).success = false
      ∧ (Base64URLDecoder.crack decode_fn "" checker).unencrypted_text = none)
  ∧ ((Base91Decoder.crack decode_fn "" checker).success = false
      ∧ (Base91Decoder.crack decode_fn "" checker).unencrypted_text = none)
  ∧ ((Z85Decoder.crack decode_fn "" checker).success = false
      ∧ (Z85Decoder.crack decode_fn "" checker).unencrypted_text = none) := by
  have hrev : ReverseDecoder.crack "" checker = CrackResult.new "Reverse" "" := by
    unfold ReverseDecoder.crack
    simp
  have hcae : CaesarDecoder.crack "" checker = CrackResult.new "Caesar Cipher" "" := by
    unfold CaesarDecoder.crack
    exact caesarLoop_guard_fail "" checker _ [] 1 (by omega) (by decide)
  have hmor : MorseCodeDecoder.crack "" checker = CrackResult.new "Morse Code" "" := by
    unfold MorseCodeDecoder.crack
    have h1 : dictionary_decode (splitOnSpace "") morse_to_alphanumeric_dictionary
        = some "" := by decide
    rw [h1]
    simp only [if_pos (by decide : check_string_success "" "" = false)]
  have hb64 : Base64URLDecoder.crack decode_fn "" checker
      = CrackResult.new "base64_url" "" := by
    unfold Base64URLDecoder.crack
    rcases hd with h | h <;> rw [h]
    simp only [if_pos (by decide : check_string_success "" "" = false)]
  have hb91 : Base91Decoder.crack decode_fn "" checker
      = CrackResult.new "base91" "" := by
    unfold Base91Decoder.crack
    rcases hd with h | h <;> rw [h]
    simp only [if_pos (by decide : check_string_success "" "" = false)]
  have hz85 : Z85Decoder.crack decode_fn "" checker
      = CrackResult.new "Z85" "" := by
    unfold Z85Decoder.crack
    rcases hd with h | h <;> rw [h]
    simp only [if_pos (by decide : check_string_success "" "" = false)]
  rw [hrev, hcae, hmor, hb64, hb91, hz85]
  simp [CrackResult.new]

/-- Witness for empty input handling: even an everything-identifying checker
and a transform returning the empty decode produce no success on empty input. -/
theorem crack_empty_input_witness :
    (CaesarDecoder.crack "" alwaysYesChecker).success = false
    ∧ (Base64URLDecoder.crack (fun _ => some "") "" alwaysYesChecker).success = false := by
  have h := crack_empty_input alwaysYesChecker (fun _ => some "") (Or.inr rfl)
  exact ⟨h.2.1.1, h.2.2.2.1.1⟩

/-- C3 amended (C3 as stated is refuted on the reverse decoder by
reverse_noop_guard_counterexample): every strategy that invokes the no-op
guard, that is every strategy except the reverse decoder, returns an
unsuccessful outcome whenever its raw transform output is rejected by the
guard; the reverse decoder rejects only the empty input and applies no guard
to its output. -/
theorem noop_guard_blocks_success (text : String) (checker : CheckerTypes) :
    ((∀ s, 1 ≤ s → s ≤ 25 → check_string_success (caesar text s) text = false) →
      (CaesarDecoder.crack text checker).success = false)
  ∧ (∀ out,
      dictionary_decode (splitOnSpace text) morse_to_alphanumeric_dictionary = some out →
      check_string_success out text = false →
      (MorseCodeDecoder.crack text checker).success = false)
  ∧ (∀ decode_fn out, decode_fn text = some out → check_string_success out text = false →
      (Base64URLDecoder.crack decode_fn text checker).success = false
      ∧ (Base91Decoder.crack decode_fn text checker).success = false
      ∧ (Z85Decoder.crack decode_fn text checker).success = false) := by
  refine ⟨?_, ?_, ?_⟩
  · intro hg
    unfold CaesarDecoder.crack
    rw [caesarLoop_guard_fail text checker _ [] 1 (by omega) (hg 1 (by omega) (by omega))]
    rfl
  · intro out hsome hguard
    unfold MorseCodeDecoder.crack
    rw [hsome]
    simp only [if_pos hguard]
    rfl
  · intro decode_fn out hsome hguard
    refine ⟨?_, ?_, ?_⟩
    · unfold Base64URLDecoder.crack
      rw [hsome]
      simp only [if_pos hguard]
      rfl
    · unfold Base91Decoder.crack
      rw [hsome]
      simp only [if_pos hguard]
      rfl
    · unfold Z85Decoder.crack
      rw [hsome]
      simp only [if_pos hguard]
      rfl

/-- Witness for the amended no-op guard property: the input with no letters is
left unchanged by every caesar shift and by the identity transform, so neither
the caesar crack nor a fixed-alphabet crack can succeed on it, even with an
everything-identifying checker. -/
theorem noop_guard_blocks_success_witness :
    (CaesarDecoder.crack "#" alwaysYesChecker).success = false
    ∧ (Base64URLDecoder.crack (fun s => some s) "#" alwaysYesChecker).success = false := by
  constructor
  · exact (noop_guard_blocks_success "#" alwaysYesChecker).1
      (by intro s h1 h2; interval_cases s <;> decide)
  · exact ((noop_guard_blocks_success "#" alwaysYesChecker).2.2
      (fun s => some s) "#" rfl (by decide)).1

end Ares
